import Mathlib

/-!
Verification of the rmote change-reconciliation engine (src/src/main.rs).

Filesystem paths are modelled as lists of components (`Path::components`);
`Path::starts_with` is component-wise list-prefix, `Path::file_name` is the
last component, `PathBuf::join`/`push` is list append.  The SFTP subsystem is
modelled as an abstract interface `SftpM σ` of state-threaded operations, so
that remote failures and races are arbitrary; concrete instances are given for
witnesses and counterexamples.
-/

/-- A filesystem path as its list of components. -/
abbrev FsPath := List String

/-- Split a character list at the path separator. -/
def splitGo : List Char → List Char → List String
  | [], acc => [String.mk acc.reverse]
  | c :: rest, acc =>
    if c = '/' then String.mk acc.reverse :: splitGo rest []
    else splitGo rest (c :: acc)

/-- Components of a blacklist entry string (`PathBuf::from(s)`): split on the
separator, dropping empty pieces. -/
def splitEntry (s : String) : FsPath :=
  (splitGo s.data []).filter (fun c => c ≠ "")

/-- Rust `Path::file_name`: the final component. -/
def fileName (p : FsPath) : Option String := p.getLast?

/-- Rust `Path::starts_with(blk)`: `blk` is a component-wise path prefix of `p`. -/
def startsWith : FsPath → FsPath → Bool
  | _, [] => true
  | [], _ :: _ => false
  | a :: xs, b :: ys => a = b && startsWith xs ys

/-- The `blacklist` field of `App` (src/src/main.rs:115-119): each entry
string parsed as a path. -/
def blacklistPaths (entries : List String) : List FsPath :=
  entries.map splitEntry

/-- The `blacklist_names` field of `App` (src/src/main.rs:121-126): the final
component (`file_name`) of each entry. -/
def blacklistNames (entries : List String) : List String :=
  entries.filterMap (fun s => (splitEntry s).getLast?)

/-- The name-match clause of `App::is_blacklisted` (src/src/main.rs:427-431):
the final component of the candidate path is among the entry base names. -/
def nameMatches (entries : List String) (p : FsPath) : Bool :=
  match fileName p with
  | some n => (blacklistNames entries).contains n
  | none => false

/-- The prefix-match loop of `App::is_blacklisted` (src/src/main.rs:432-441):
the candidate starts with an entry, literally or resolved under the root. -/
def prefixMatches (entries : List String) (root : FsPath) (p : FsPath) : Bool :=
  (blacklistPaths entries).any (fun blk =>
    startsWith p blk || startsWith p (root ++ blk))

/-- Rust `App::is_blacklisted` (src/src/main.rs:426-443). -/
def isBlacklisted (entries : List String) (root : FsPath) (p : FsPath) : Bool :=
  nameMatches entries p || prefixMatches entries root p

/-- The subset of `notify::EventKind` the engine distinguishes. -/
inductive EventKind where
  | created
  | modified
  | removed
  | other
deriving DecidableEq, Repr

/-- The `SyncAction` enum (src/src/main.rs:65-70). -/
inductive SyncAction where
  | transfer
  | delete
  | none
deriving DecidableEq, Repr

/-- The per-kind action of the match in `App::process_events`
(src/src/main.rs:256-260). -/
def kindToAction : EventKind → SyncAction
  | .created => .transfer
  | .modified => .transfer
  | .removed => .delete
  | .other => .none

/-- One iteration of the coalescing loop in `App::process_events`
(src/src/main.rs:255-274); the state is the `actions` vector together with
the `last` variable. -/
def coalesceStep (st : List SyncAction × SyncAction) (k : EventKind) : List SyncAction × SyncAction :=
  let action := kindToAction k
  match action with
  | .transfer =>
      (if st.2 ≠ SyncAction.transfer then st.1 ++ [SyncAction.transfer] else st.1, action)
  | .delete => ([SyncAction.delete], action)
  | .none => (st.1, action)

/-- The `actions` vector produced by folding the kind history of a path
(src/src/main.rs:252-274). -/
def coalesce (ks : List EventKind) : List SyncAction :=
  (ks.foldl coalesceStep ([], SyncAction.none)).1

/-- Rust `actions.last()` (src/src/main.rs:276): the intent actually applied. -/
def finalAction (ks : List EventKind) : Option SyncAction :=
  (coalesce ks).getLast?

/-- A kind is actionable when it is created, modified or removed. -/
def isActionable : EventKind → Bool
  | .other => false
  | _ => true

/-- Remote node type as reported by `stat` / `readdir`. -/
inductive RKind where
  | file
  | dir
deriving DecidableEq, Repr

/-- Local `fs::metadata` result. -/
structure FileMeta where
  mode : Nat
  isDir : Bool
  isFile : Bool
deriving DecidableEq, Repr

/-- Static configuration plus the local-filesystem oracles of one tick:
`canon` is `fs::canonicalize` (`none` = error), `localStat` is
`fs::metadata` (`none` = error), `localOpenOk` says whether
`File::open` plus `io::copy` from a local file succeeds. -/
structure SyncEnv where
  blacklist : List String
  localRoot : FsPath
  remoteRoot : FsPath
  canon : FsPath → Option FsPath
  localStat : FsPath → Option FileMeta
  localOpenOk : FsPath → Bool

/-- Rust `App::rel` (src/src/main.rs:418-424): canonicalize (falling back to the
path itself on error) and strip the local root; `none` when the path is not
under the root. -/
def rel (env : SyncEnv) (p : FsPath) : Option FsPath :=
  let c := (env.canon p).getD p
  if startsWith c env.localRoot then some (c.drop env.localRoot.length) else none

/-- The SFTP subsystem (ssh2 `Sftp`) as an abstract state-threaded interface.
`stat` returns the node type or `none` on error; the mutating operations
return the next state and a success flag (the Rust `Result`). -/
structure SftpM (σ : Type) where
  stat : σ → FsPath → Option RKind
  mkdir : σ → FsPath → Nat → σ × Bool
  unlink : σ → FsPath → σ × Bool
  rmdir : σ → FsPath → σ × Bool
  readdir : σ → FsPath → Option (List (FsPath × RKind))
  create : σ → FsPath → σ × Bool
  setstat : σ → FsPath → Nat → σ × Bool

/-- Rust `App::remote_exists` (src/src/main.rs:378-383): stat succeeds. -/
def remoteExists (S : SftpM σ) (s : σ) (p : FsPath) : Bool :=
  (S.stat s p).isSome

/-- Rust `App::remote_is_dir` (src/src/main.rs:385-390): stat failure counts as
not a directory, never as an error. -/
def remoteIsDir (S : SftpM σ) (s : σ) (p : FsPath) : Bool :=
  S.stat s p = some RKind.dir

/-- The component walk of `App::ensure_remote_dir` (src/src/main.rs:355-376):
`built` accumulates components; a failed `mkdir` is tolerated exactly when the
re-check finds the prefix present, otherwise the walk stops with the failing
prefix. -/
def ensureRemoteDirGo (S : SftpM σ) (mode : Nat) :
    σ → FsPath → List String → σ × Except FsPath Unit
  | s, _, [] => (s, .ok ())
  | s, built, c :: rest =>
    let b := built ++ [c]
    if b.isEmpty then ensureRemoteDirGo S mode s b rest
    else
      let m := S.mkdir s b mode
      if m.2 then ensureRemoteDirGo S mode m.1 b rest
      else if remoteExists S m.1 b then ensureRemoteDirGo S mode m.1 b rest
      else (m.1, .error b)

/-- Rust `App::ensure_remote_dir` (src/src/main.rs:355-376). -/
def ensureRemoteDir (S : SftpM σ) (s : σ) (rdir : FsPath) (mode : Nat) :
    σ × Except FsPath Unit :=
  ensureRemoteDirGo S mode s [] rdir

/-- Rust `App::copy_file_to_remote` (src/src/main.rs:340-353): remote create (the
flag also covers the byte copy into it), local open/read, then best-effort
`setstat` whose result is discarded. -/
def copyFileToRemote (S : SftpM σ) (env : SyncEnv) (s : σ)
    (lpath remote : FsPath) (mode : Nat) : σ × Bool :=
  let cr := S.create s remote
  if !cr.2 then (cr.1, false)
  else if !(env.localOpenOk lpath) then (cr.1, false)
  else ((S.setstat cr.1 remote mode).1, true)

/-- Rust `App::remote_remove_dir_recursive` (src/src/main.rs:392-416).  The `fuel`
argument only bounds the recursion depth (the Rust recursion terminates
because the remote tree is finite); callers pass a bound larger than any
reachable depth, and no theorem below depends on its value. -/
def removeDirRec (S : SftpM σ) : Nat → σ → FsPath → σ
  | 0, s, _ => s
  | fuel + 1, s, p =>
    match S.readdir s p with
    | Option.none => (S.rmdir s p).1
    | some entries =>
      let s1 := entries.foldl (fun acc e =>
        if e.1.getLast? = some "." ∨ e.1.getLast? = some ".." then acc
        else if e.2 = RKind.dir then removeDirRec S fuel acc e.1
        else (S.unlink acc e.1).1) s
      (S.rmdir s1 p).1

/-- Rust `App::delete_element` (src/src/main.rs:315-338): skip blacklisted and
out-of-root paths, try unlink, then recursive directory removal; every branch
returns `Ok`. -/
def deleteElement (S : SftpM σ) (fuel : Nat) (env : SyncEnv) (s : σ)
    (p : FsPath) : σ × Except String Unit :=
  if isBlacklisted env.blacklist env.localRoot p then (s, .ok ())
  else
    match rel env p with
    | Option.none => (s, .ok ())
    | some r =>
      let remote := env.remoteRoot ++ r
      let u := S.unlink s remote
      if u.2 then (u.1, .ok ())
      else if remoteIsDir S u.1 remote then (removeDirRec S fuel u.1 remote, .ok ())
      else (u.1, .ok ())

/-- Rust `App::transfer_element` (src/src/main.rs:288-313): skip blacklisted paths;
a failed local stat delegates to `delete_element`; otherwise ensure the remote
directory (for a dir) or ensure the remote parent and upload (for a file). -/
def transferElement (S : SftpM σ) (fuel : Nat) (env : SyncEnv) (s : σ)
    (p : FsPath) : σ × Except String Unit :=
  if isBlacklisted env.blacklist env.localRoot p then (s, .ok ())
  else
    match env.localStat p with
    | Option.none => deleteElement S fuel env s p
    | some meta =>
      match rel env p with
      | Option.none => (s, .error "path outside project root")
      | some r =>
        let remote := env.remoteRoot ++ r
        let mode := meta.mode &&& 511
        if meta.isDir then
          match ensureRemoteDir S s remote mode with
          | (s1, .ok _) => (s1, .ok ())
          | (s1, .error _) => (s1, .error "mkdir failed")
        else if meta.isFile then
          let pr := if remote.isEmpty then (s, Except.ok ())
                    else ensureRemoteDir S s remote.dropLast 493
          match pr with
          | (s1, .error _) => (s1, .error "mkdir failed")
          | (s1, .ok _) =>
            let cp := copyFileToRemote S env s1 p remote mode
            if cp.2 then (cp.1, .ok ()) else (cp.1, .error "copy failed")
        else (s, .ok ())

/-- The per-path loop of `App::process_events` (src/src/main.rs:247-283):
the per-path kind histories of the tick (the `per_path` map, in iteration order),
each folded to a final action and applied; the `?` operators propagate the
first application error. -/
def processEvents (S : SftpM σ) (fuel : Nat) (env : SyncEnv) :
    σ → List (FsPath × List EventKind) → σ × Except String Unit
  | s, [] => (s, .ok ())
  | s, (p, ks) :: rest =>
    if isBlacklisted env.blacklist env.localRoot p then
      processEvents S fuel env s rest
    else
      match finalAction ks with
      | Option.none => processEvents S fuel env s rest
      | some SyncAction.none => processEvents S fuel env s rest
      | some SyncAction.transfer =>
        match transferElement S fuel env s p with
        | (s1, .ok _) => processEvents S fuel env s1 rest
        | (s1, .error e) => (s1, .error e)
      | some SyncAction.delete =>
        match deleteElement S fuel env s p with
        | (s1, .ok _) => processEvents S fuel env s1 rest
        | (s1, .error e) => (s1, .error e)

/-- The tick loop of `App::dispatcher` (src/src/main.rs:210-233) over a finite
list of debounce ticks (the loop ends when the event channel disconnects);
`self.process_events(&mut events)?` propagates the error of a tick out of the
loop. -/
def dispatcherTicks (S : SftpM σ) (fuel : Nat) (env : SyncEnv) :
    σ → List (List (FsPath × List EventKind)) → σ × Except String Unit
  | s, [] => (s, .ok ())
  | s, t :: ts =>
    match processEvents S fuel env s t with
    | (s1, .ok _) => dispatcherTicks S fuel env s1 ts
    | (s1, .error e) => (s1, .error e)

/-- A snapshot of the local tree for the initial full sync: a directory entry
is a regular file, a directory with named children, or another entry type
(symlink, device, ...) that `transfer_all` silently skips. -/
inductive FsTree where
  | file (mode : Nat)
  | dir (mode : Nat) (children : List (String × FsTree))
  | special

mutual

/-- Number of nodes of a tree. -/
def treeSize : FsTree → Nat
  | .file _ => 1
  | .special => 1
  | .dir _ cs => 1 + childrenSize cs

/-- Total number of nodes of a list of named children. -/
def childrenSize : List (String × FsTree) → Nat
  | [] => 0
  | e :: rest => treeSize e.2 + childrenSize rest

end

/-- One remote call issued by `App::transfer_all`, annotated with the local
entry path (`path` in the loop) it is issued for: the `ensure_remote_dir`
call for a directory entry (src/src/main.rs:199), the parent
`ensure_remote_dir` call for a file entry (src/src/main.rs:202), and the
`copy_file_to_remote` call for a file entry (src/src/main.rs:203). -/
inductive SyncOp where
  | ensureDirEntry (lpath remote : FsPath) (mode : Nat)
  | ensureParentDir (lpath remote : FsPath) (mode : Nat)
  | upload (lpath remote : FsPath) (mode : Nat)
deriving DecidableEq, Repr

/-- The local entry path a `SyncOp` was issued for. -/
def SyncOp.lpath : SyncOp → FsPath
  | .ensureDirEntry l _ _ => l
  | .ensureParentDir l _ _ => l
  | .upload l _ _ => l

/-- The body of the `for entry in fs::read_dir(&dir)` loop of
`App::transfer_all` (src/src/main.rs:184-205) over the children of one
dequeued directory: returns the remote calls issued, the directories pushed
onto the BFS queue, and whether the loop ran to completion (`ok` reports
whether each remote call succeeded; a failed call or a failed `rel` aborts
via `?`). -/
def syncChildren (env : SyncEnv) (ok : SyncOp → Bool) (dirPath : FsPath) :
    List (String × FsTree) →
    List SyncOp × List (FsPath × List (String × FsTree)) × Bool
  | [] => ([], [], true)
  | (name, t) :: rest =>
    let path := dirPath ++ [name]
    if isBlacklisted env.blacklist env.localRoot path then
      syncChildren env ok dirPath rest
    else
      match rel env path with
      | Option.none => ([], [], false)
      | some r =>
        let remote := env.remoteRoot ++ r
        match t with
        | .dir m cs =>
          let op := SyncOp.ensureDirEntry path remote (m &&& 511)
          if ok op then
            let rst := syncChildren env ok dirPath rest
            (op :: rst.1, (path, cs) :: rst.2.1, rst.2.2)
          else ([op], [], false)
        | .file m =>
          let pop := SyncOp.ensureParentDir path remote.dropLast 493
          if ok pop then
            let uop := SyncOp.upload path remote (m &&& 511)
            if ok uop then
              let rst := syncChildren env ok dirPath rest
              (pop :: uop :: rst.1, rst.2.1, rst.2.2)
            else ([pop, uop], [], false)
          else ([pop], [], false)
        | .special => syncChildren env ok dirPath rest

/-- The BFS queue loop of `App::transfer_all` (src/src/main.rs:179-208).
The `fuel` argument only bounds the number of dequeue steps; since every step
strictly shrinks the total queue size, the bound passed by `transferAll` is
never reached (every theorem below holds for any fuel). -/
def transferAllGo (env : SyncEnv) (ok : SyncOp → Bool) :
    Nat → List (FsPath × List (String × FsTree)) → List SyncOp × Bool
  | _, [] => ([], true)
  | 0, _ :: _ => ([], false)
  | fuel + 1, (dirPath, children) :: rest =>
    let res := syncChildren env ok dirPath children
    if res.2.2 then
      let r2 := transferAllGo env ok fuel (rest ++ res.2.1)
      (res.1 ++ r2.1, r2.2)
    else (res.1, false)

/-- Rust `App::transfer_all` (src/src/main.rs:179-208): BFS from the local root,
whose `read_dir` listing is `children`. -/
def transferAll (env : SyncEnv) (ok : SyncOp → Bool)
    (children : List (String × FsTree)) : List SyncOp × Bool :=
  transferAllGo env ok (1 + childrenSize children) [(env.localRoot, children)]

/-- A concrete remote store for witnesses: the list of existing remote paths
with their node types. -/
abbrev RemoteFS := List (FsPath × RKind)

/-- Stat on the concrete store. -/
def rstat (fs : RemoteFS) (p : FsPath) : Option RKind :=
  (fs.find? (fun e => decide (e.1 = p))).map (fun e => e.2)

/-- Immediate children of a directory in the concrete store. -/
def rchildren (fs : RemoteFS) (p : FsPath) : List (FsPath × RKind) :=
  fs.filter (fun e => decide (e.1.dropLast = p) && decide (e.1 ≠ []))

/-- The concrete store as an `SftpM` instance with the usual POSIX-style
semantics: mkdir fails on an existing target or missing parent, unlink works
on files only, rmdir on empty directories only, readdir fails on
non-directories, create truncates or creates a file under an existing
parent. -/
def sftpOfFS : SftpM RemoteFS where
  stat := fun s p => rstat s p
  mkdir := fun s p _ =>
    if rstat s p = Option.none ∧ (p.dropLast = [] ∨ rstat s p.dropLast = some RKind.dir)
    then (s ++ [(p, RKind.dir)], true) else (s, false)
  unlink := fun s p =>
    if rstat s p = some RKind.file then (s.filter (fun e => decide (e.1 ≠ p)), true)
    else (s, false)
  rmdir := fun s p =>
    if rstat s p = some RKind.dir ∧ rchildren s p = []
    then (s.filter (fun e => decide (e.1 ≠ p)), true) else (s, false)
  readdir := fun s p =>
    if rstat s p = some RKind.dir then some (rchildren s p) else Option.none
  create := fun s p =>
    if (p.dropLast = [] ∨ rstat s p.dropLast = some RKind.dir) ∧ rstat s p ≠ some RKind.dir
    then (s.filter (fun e => decide (e.1 ≠ p)) ++ [(p, RKind.file)], true) else (s, false)
  setstat := fun s p _ => (s, (rstat s p).isSome)

/-- An instrumented SFTP instance whose state is the log of calls made; every
mutating call fails (in particular every upload), every stat succeeds. -/
def sftpLog : SftpM (List String) where
  stat := fun _ _ => some RKind.dir
  mkdir := fun s _ _ => (s ++ ["mkdir"], false)
  unlink := fun s _ => (s ++ ["unlink"], false)
  rmdir := fun s _ => (s ++ ["rmdir"], false)
  readdir := fun _ _ => Option.none
  create := fun s _ => (s ++ ["create"], false)
  setstat := fun s _ _ => (s ++ ["setstat"], true)

/-- A degenerate SFTP instance: every mkdir fails but every stat succeeds
(everything already exists, as after losing a creation race). -/
def sftpAllExist : SftpM Unit where
  stat := fun _ _ => some RKind.dir
  mkdir := fun s _ _ => (s, false)
  unlink := fun s _ => (s, false)
  rmdir := fun s _ => (s, false)
  readdir := fun _ _ => Option.none
  create := fun s _ => (s, false)
  setstat := fun s _ _ => (s, false)

/-- A degenerate SFTP instance: every mkdir fails and nothing exists. -/
def sftpNoneExist : SftpM Unit where
  stat := fun _ _ => Option.none
  mkdir := fun s _ _ => (s, false)
  unlink := fun s _ => (s, false)
  rmdir := fun s _ => (s, false)
  readdir := fun _ _ => Option.none
  create := fun s _ => (s, false)
  setstat := fun s _ _ => (s, false)

/-- A plain environment: empty blacklist, root `/r`, remote base `rem`,
canonicalization the identity, every local path a mode-644 regular file. -/
def envA : SyncEnv where
  blacklist := []
  localRoot := ["/", "r"]
  remoteRoot := ["rem"]
  canon := fun p => some p
  localStat := fun _ => some { mode := 420, isDir := false, isFile := true }
  localOpenOk := fun _ => true

/-- Like `envA` but every local stat fails (paths vanished). -/
def envNoStat : SyncEnv :=
  { envA with localStat := fun _ => Option.none }

/-- Like `envA` but with the blacklist entry `build`. -/
def envB : SyncEnv :=
  { envA with blacklist := ["build"] }

/-- An environment whose blacklist entry `r` excludes the local root `/r`
itself by final-component name. -/
def envCx : SyncEnv :=
  { envA with blacklist := ["r"] }

/-- The op-success oracle under which every remote call of the full sync
succeeds. -/
def okAll : SyncOp → Bool := fun _ => true

/-- A remote store holding only the remote base directory `rem`. -/
def fs0 : RemoteFS := [(["rem"], RKind.dir)]

/-- A path is safe from the excluded region: no excluded path inside the
local root is a path prefix of it. -/
def SafeFromExcluded (env : SyncEnv) (pth : FsPath) : Prop :=
  ∀ e : FsPath, startsWith e env.localRoot = true →
    isBlacklisted env.blacklist env.localRoot e = true →
    startsWith pth e = false

/-- Decidable equality for `Except`, used to evaluate results on concrete
inputs. -/
instance instDecEqExcept {ε α : Type} [DecidableEq ε] [DecidableEq α] :
    DecidableEq (Except ε α) := fun x y =>
  match x, y with
  | Except.ok a, Except.ok b =>
    if h : a = b then isTrue (h ▸ rfl) else isFalse (fun hh => h (Except.ok.inj hh))
  | Except.error a, Except.error b =>
    if h : a = b then isTrue (h ▸ rfl) else isFalse (fun hh => h (Except.error.inj hh))
  | Except.ok _, Except.error _ => isFalse (fun hh => Except.noConfusion hh)
  | Except.error _, Except.ok _ => isFalse (fun hh => Except.noConfusion hh)

theorem startsWith_nil (p : FsPath) : startsWith p [] = true := by
  cases p <;> rfl

theorem startsWith_append (b t : FsPath) : startsWith (b ++ t) b = true := by
  induction b with
  | nil => exact startsWith_nil t
  | cons a xs ih => simp [startsWith, ih]

theorem startsWith_refl (p : FsPath) : startsWith p p = true := by
  have h := startsWith_append p []
  simpa using h

theorem startsWith_antisymm : ∀ p q : FsPath,
    startsWith p q = true → startsWith q p = true → p = q := by
  intro p
  induction p with
  | nil =>
    intro q h1 _
    cases q with
    | nil => rfl
    | cons b ys => simp [startsWith] at h1
  | cons a xs ih =>
    intro q h1 h2
    cases q with
    | nil => simp [startsWith] at h2
    | cons b ys =>
      simp [startsWith] at h1 h2
      exact by rw [h1.1, ih ys h1.2 h2.2]

theorem startsWith_snoc : ∀ (p : FsPath) (n : String) (e : FsPath),
    startsWith (p ++ [n]) e = true → startsWith p e = true ∨ e = p ++ [n] := by
  intro p
  induction p with
  | nil =>
    intro n e h
    cases e with
    | nil => exact Or.inl rfl
    | cons b ys =>
      simp only [List.nil_append, startsWith, Bool.and_eq_true, decide_eq_true_eq] at h
      cases ys with
      | nil => exact Or.inr (by simp [h.1])
      | cons c zs => simp [startsWith] at h
  | cons a xs ih =>
    intro n e h
    cases e with
    | nil => exact Or.inl (startsWith_nil _)
    | cons b ys =>
      simp only [List.cons_append, startsWith, Bool.and_eq_true, decide_eq_true_eq] at h
      rcases ih n ys h.2 with h2 | h2
      · exact Or.inl (by simp [startsWith, h.1, h2])
      · exact Or.inr (by rw [h.1, h2]; rfl)

/-- Claim C1: the coalescing fold maps the kind history `[Modified, Removed]`
to the single intent Delete, `[Removed, Created]` to Transfer, and
`[Created, Modified, Modified]` to a single collapsed Transfer. -/
theorem c1_fold_examples :
    finalAction [EventKind.modified, EventKind.removed] = some SyncAction.delete
    ∧ finalAction [EventKind.removed, EventKind.created] = some SyncAction.transfer
    ∧ coalesce [EventKind.created, EventKind.modified, EventKind.modified]
        = [SyncAction.transfer]
    ∧ finalAction [EventKind.created, EventKind.modified, EventKind.modified]
        = some SyncAction.transfer := by
  decide

/-- Claim C3: with blacklist `["build", "x/y"]` and local root `/r`, the
paths `/r/build/out.o` (prefix match under the root), `/r/x/y/z` (prefix
match under the root) and `/r/other/build` (final-component name match) are
all excluded. -/
theorem c3_filter_examples :
    isBlacklisted ["build", "x/y"] ["/", "r"] ["/", "r", "build", "out.o"] = true
    ∧ isBlacklisted ["build", "x/y"] ["/", "r"] ["/", "r", "x", "y", "z"] = true
    ∧ isBlacklisted ["build", "x/y"] ["/", "r"] ["/", "r", "other", "build"] = true := by
  decide

/-- Claim C4, counterexample: with the multi-component entry `x/y`, the
name-match clause fires on `/r/a/y`, whose final component `y` is not the
entry string `x/y` — the clause compares against the final component of the entry itself, not the whole
component, not the whole entry. -/
theorem c4_counterexample :
    nameMatches ["x/y"] ["/", "r", "a", "y"] = true
    ∧ isBlacklisted ["x/y"] ["/", "r"] ["/", "r", "a", "y"] = true
    ∧ fileName ["/", "r", "a", "y"] = some "y"
    ∧ ¬ ("y" = "x/y") := by
  decide

/-- Claim C4, amended: the name-match clause matches exactly when the
final component of the candidate equals the final component (base name) of
some blacklist entry. -/
theorem c4_amended (entries : List String) (p : FsPath) :
    nameMatches entries p = true ↔
      ∃ n, fileName p = some n ∧ ∃ e ∈ entries, (splitEntry e).getLast? = some n := by
  unfold nameMatches
  cases hf : fileName p with
  | none => simp
  | some n =>
    simp only [hf, Option.some.injEq]
    constructor
    · intro h
      refine ⟨n, rfl, ?_⟩
      have hm : n ∈ blacklistNames entries := by
        simpa using h
      simpa [blacklistNames, List.mem_filterMap] using hm
    · rintro ⟨n2, rfl, e, he, hlast⟩
      have hm : n ∈ blacklistNames entries := by
        simp only [blacklistNames, List.mem_filterMap]
        exact ⟨e, he, hlast⟩
      simpa using hm

/-- Claim C2, counterexample: under `sftpLog` every upload fails.  In a tick
holding Transfer intents for `/r/f1` and `/r/f2`, the failure on `/r/f1`
makes `process_events` return the error: `/r/f2` is never applied (the call
log holds only the mkdir probe and the failed create for `/r/f1`), and a
failing first tick makes the dispatcher loop return without processing the
second tick — the error aborts the loop instead of being recovered. -/
theorem c2_counterexample :
    processEvents sftpLog 3 envA []
      [(["/", "r", "f1"], [EventKind.created]), (["/", "r", "f2"], [EventKind.created])]
      = (["mkdir", "create"], Except.error "copy failed")
    ∧ dispatcherTicks sftpLog 3 envA []
      [[(["/", "r", "f1"], [EventKind.created])], [(["/", "r", "f2"], [EventKind.created])]]
      = (["mkdir", "create"], Except.error "copy failed") := by
  decide

/-- Claim C2, amended: a per-path application error is not recovered — when
applying the Transfer intent of the first path of a tick fails,
`process_events` returns that error without applying any of the remaining
paths, and a tick whose `process_events` fails makes the dispatcher loop
return that error without processing any later tick. -/
theorem c2_amended (σ : Type) (S : SftpM σ) (fuel : Nat) (env : SyncEnv) (s : σ) :
    (∀ (p : FsPath) (ks : List EventKind) (rest : List (FsPath × List EventKind))
       (s1 : σ) (e : String),
       isBlacklisted env.blacklist env.localRoot p = false →
       finalAction ks = some SyncAction.transfer →
       transferElement S fuel env s p = (s1, Except.error e) →
       processEvents S fuel env s ((p, ks) :: rest) = (s1, Except.error e))
    ∧ (∀ (tick : List (FsPath × List EventKind))
         (ts : List (List (FsPath × List EventKind))) (s1 : σ) (e : String),
         processEvents S fuel env s tick = (s1, Except.error e) →
         dispatcherTicks S fuel env s (tick :: ts) = (s1, Except.error e)) := by
  constructor
  · intro p ks rest s1 e hbl hfa htr
    simp [processEvents, hbl, hfa, htr]
  · intro tick ts s1 e h
    simp [dispatcherTicks, h]

/-- Witness for the amended claim C2 at a concrete failing upload. -/
theorem c2_amended_witness :
    transferElement sftpLog 3 envA [] ["/", "r", "f1"]
      = (["mkdir", "create"], Except.error "copy failed")
    ∧ processEvents sftpLog 3 envA []
        [(["/", "r", "f1"], [EventKind.created]), (["/", "r", "f2"], [EventKind.created])]
      = (["mkdir", "create"], Except.error "copy failed") :=
  ⟨by decide,
   (c2_amended (List String) sftpLog 3 envA []).1 ["/", "r", "f1"] [EventKind.created]
     [(["/", "r", "f2"], [EventKind.created])] ["mkdir", "create"] "copy failed"
     (by decide) (by decide) (by decide)⟩

/-- Claim C9, counterexample: with the blacklist entry `r`, the local root
`/r` itself is excluded by its final-component name, yet the full sync (which
never filter-checks the root before descending into it) still uploads
`/r/a.txt` — a remote operation under an excluded directory. -/
theorem c9_counterexample :
    isBlacklisted ["r"] ["/", "r"] ["/", "r"] = true
    ∧ SyncOp.upload ["/", "r", "a.txt"] ["rem", "a.txt"] 420
        ∈ (transferAll envCx okAll [("a.txt", FsTree.file 420)]).1
    ∧ startsWith ["/", "r", "a.txt"] ["/", "r"] = true := by
  decide

theorem coalesce_spec (ks : List EventKind) :
    (ks.foldl coalesceStep ([], SyncAction.none)).1.getLast?
        = ((ks.filter isActionable).getLast?).map kindToAction
    ∧ ((ks.foldl coalesceStep ([], SyncAction.none)).2 = SyncAction.transfer →
        (ks.foldl coalesceStep ([], SyncAction.none)).1.getLast?
          = some SyncAction.transfer) := by
  induction ks using List.reverseRecOn with
  | nil => exact ⟨rfl, by intro h; exact absurd h (by decide)⟩
  | append_singleton xs k ih =>
    rw [List.foldl_append]
    simp only [List.foldl_cons, List.foldl_nil]
    cases k with
    | other =>
      refine ⟨?_, ?_⟩
      · simpa [coalesceStep, kindToAction, isActionable] using ih.1
      · intro h
        simp [coalesceStep, kindToAction] at h
    | removed =>
      refine ⟨?_, ?_⟩
      · simp [coalesceStep, kindToAction, isActionable, List.filter_append]
      · intro h
        simp [coalesceStep, kindToAction] at h
    | created =>
      have hlast : (coalesceStep (List.foldl coalesceStep ([], SyncAction.none) xs)
          EventKind.created).1.getLast? = some SyncAction.transfer := by
        by_cases hc :
            (List.foldl coalesceStep ([], SyncAction.none) xs).2 = SyncAction.transfer
        · simp [coalesceStep, kindToAction, hc, ih.2 hc]
        · simp [coalesceStep, kindToAction, hc]
      refine ⟨?_, fun _ => hlast⟩
      rw [hlast]
      simp [isActionable, List.filter_append, kindToAction]
    | modified =>
      have hlast : (coalesceStep (List.foldl coalesceStep ([], SyncAction.none) xs)
          EventKind.modified).1.getLast? = some SyncAction.transfer := by
        by_cases hc :
            (List.foldl coalesceStep ([], SyncAction.none) xs).2 = SyncAction.transfer
        · simp [coalesceStep, kindToAction, hc, ih.2 hc]
        · simp [coalesceStep, kindToAction, hc]
      refine ⟨?_, fun _ => hlast⟩
      rw [hlast]
      simp [isActionable, List.filter_append, kindToAction]

/-- Claim C10: the intent a tick applies for a path is determined solely by
the last actionable kind of its arrival-ordered history — Transfer when it is
Created or Modified, Delete when it is Removed, nothing when the history has
no actionable kind — and histories with the same actionable subsequence make
`process_events` behave identically (interleaved other kinds change
nothing). -/
theorem c10_last_actionable (ks : List EventKind) :
    finalAction ks = ((ks.filter isActionable).getLast?).map kindToAction
    ∧ ∀ (σ : Type) (S : SftpM σ) (fuel : Nat) (env : SyncEnv) (s : σ)
        (p : FsPath) (ks2 : List EventKind) (rest : List (FsPath × List EventKind)),
        ks.filter isActionable = ks2.filter isActionable →
        processEvents S fuel env s ((p, ks) :: rest)
          = processEvents S fuel env s ((p, ks2) :: rest) := by
  refine ⟨(coalesce_spec ks).1, ?_⟩
  intro σ S fuel env s p ks2 rest hf
  have h1 : finalAction ks = finalAction ks2 := by
    simp only [finalAction, coalesce]
    rw [(coalesce_spec ks).1, (coalesce_spec ks2).1, hf]
  simp only [processEvents, h1]

/-- Witness for claim C10: an interleaved Other kind does not change how the
tick is processed. -/
theorem c10_witness :
    [EventKind.created, EventKind.other].filter isActionable
        = [EventKind.created].filter isActionable
    ∧ processEvents sftpLog 3 envA []
        [(["/", "r", "f1"], [EventKind.created, EventKind.other])]
      = processEvents sftpLog 3 envA [] [(["/", "r", "f1"], [EventKind.created])] :=
  ⟨by decide,
   (c10_last_actionable [EventKind.created, EventKind.other]).2 (List String) sftpLog 3
     envA [] ["/", "r", "f1"] [EventKind.created] [] (by decide)⟩

theorem ensureGo_ok {σ : Type} (S : SftpM σ) (mode : Nat)
    (hmk : ∀ (s1 : σ) (b : FsPath), (S.mkdir s1 b mode).2 = false →
      remoteExists S (S.mkdir s1 b mode).1 b = true) :
    ∀ (rest : List String) (s : σ) (built : FsPath),
      (ensureRemoteDirGo S mode s built rest).2 = Except.ok () := by
  intro rest
  induction rest with
  | nil => intro s built; rfl
  | cons c rest ih =>
    intro s built
    simp only [ensureRemoteDirGo]
    by_cases he : (built ++ [c]).isEmpty = true
    · simp [he, ih]
    · simp only [he, if_false, Bool.false_eq_true]
      by_cases hm : (S.mkdir s (built ++ [c]) mode).2 = true
      · simp [hm, ih]
      · have hb : (S.mkdir s (built ++ [c]) mode).2 = false := by
          cases hq : (S.mkdir s (built ++ [c]) mode).2
          · rfl
          · exact absurd hq hm
        simp [hm, hmk _ _ hb, ih]

theorem ensureGo_err {σ : Type} (S : SftpM σ) (mode : Nat) :
    ∀ (rest : List String) (s : σ) (built : FsPath) (b : FsPath),
      (ensureRemoteDirGo S mode s built rest).2 = Except.error b →
      ∃ u v, rest = u ++ v ∧ b = built ++ u ∧ u ≠ []
        ∧ ∃ s1 : σ, (S.mkdir s1 b mode).2 = false
            ∧ remoteExists S (S.mkdir s1 b mode).1 b = false := by
  intro rest
  induction rest with
  | nil =>
    intro s built b h
    exact absurd h (by simp [ensureRemoteDirGo])
  | cons c rest ih =>
    intro s built b h
    simp only [ensureRemoteDirGo] at h
    by_cases he : (built ++ [c]).isEmpty = true
    · rw [if_pos he] at h
      rcases ih _ _ _ h with ⟨u, v, hr, hb, hu, hex⟩
      exact ⟨c :: u, v, by simp [hr], by simp [hb], by simp, hex⟩
    · rw [if_neg he] at h
      cases hm : (S.mkdir s (built ++ [c]) mode).2 with
      | true =>
        simp only [hm, if_true] at h
        rcases ih _ _ _ h with ⟨u, v, hr, hb, hu, hex⟩
        exact ⟨c :: u, v, by simp [hr], by simp [hb], by simp, hex⟩
      | false =>
        cases hx :
            remoteExists S (S.mkdir s (built ++ [c]) mode).1 (built ++ [c]) with
        | true =>
          simp only [hm, hx, if_true, Bool.false_eq_true, if_false] at h
          rcases ih _ _ _ h with ⟨u, v, hr, hb, hu, hex⟩
          exact ⟨c :: u, v, by simp [hr], by simp [hb], by simp, hex⟩
        | false =>
          simp only [hm, hx, Bool.false_eq_true, if_false, Except.error.injEq] at h
          subst h
          exact ⟨[c], rest, rfl, by simp, by simp, s, hm, hx⟩

/-- Claim C5: `ensure_remote_dir` succeeds whenever every walked prefix exists
after its create attempt (a failed create whose re-check finds the prefix
present — pre-existing or created by a racing actor — is tolerated), and it
returns an error identifying a failing prefix only when the create for that
prefix failed and the re-check still found it absent. -/
theorem c5_ensure_dir (σ : Type) (S : SftpM σ) (mode : Nat) (s : σ) (rdir : FsPath) :
    ((∀ (s1 : σ) (b : FsPath), (S.mkdir s1 b mode).2 = false →
        remoteExists S (S.mkdir s1 b mode).1 b = true) →
      (ensureRemoteDir S s rdir mode).2 = Except.ok ())
    ∧ (∀ b : FsPath, (ensureRemoteDir S s rdir mode).2 = Except.error b →
        b ≠ [] ∧ startsWith rdir b = true
        ∧ ∃ s1 : σ, (S.mkdir s1 b mode).2 = false
            ∧ remoteExists S (S.mkdir s1 b mode).1 b = false) := by
  constructor
  · intro hmk
    exact ensureGo_ok S mode hmk rdir s []
  · intro b h
    rcases ensureGo_err S mode rdir s [] b h with ⟨u, v, hr, hb, hu, hex⟩
    simp only [List.nil_append] at hb
    subst hb
    refine ⟨hu, ?_, hex⟩
    rw [hr]
    exact startsWith_append b v

/-- Witness for claim C5: with every prefix already existing the walk
succeeds despite failing creates; with nothing existing it fails at the first
component. -/
theorem c5_witness :
    (ensureRemoteDir sftpAllExist () ["a", "b"] 493).2 = Except.ok ()
    ∧ ((["a"] : FsPath) ≠ [] ∧ startsWith ["a", "b"] ["a"] = true
        ∧ ∃ s1 : Unit, (sftpNoneExist.mkdir s1 ["a"] 493).2 = false
            ∧ remoteExists sftpNoneExist (sftpNoneExist.mkdir s1 ["a"] 493).1 ["a"] = false) :=
  ⟨(c5_ensure_dir Unit sftpAllExist 493 () ["a", "b"]).1 (fun s1 b _ => rfl),
   (c5_ensure_dir Unit sftpNoneExist 493 () ["a", "b"]).2 ["a"] (by decide)⟩

/-- Claim C6: when the local stat of a path fails at application time, the
Transfer application is literally the Delete application for that path. -/
theorem c6_stat_fail_deletes (σ : Type) (S : SftpM σ) (fuel : Nat) (env : SyncEnv)
    (s : σ) (p : FsPath) (h : env.localStat p = Option.none) :
    transferElement S fuel env s p = deleteElement S fuel env s p := by
  unfold transferElement
  by_cases hbl : isBlacklisted env.blacklist env.localRoot p = true
  · simp [hbl, deleteElement]
  · simp only [Bool.not_eq_true] at hbl
    simp [hbl, h]

/-- Witness for claim C6 at a vanished local path. -/
theorem c6_witness :
    envNoStat.localStat ["/", "r", "f1"] = Option.none
    ∧ transferElement sftpLog 3 envNoStat [] ["/", "r", "f1"]
        = deleteElement sftpLog 3 envNoStat [] ["/", "r", "f1"] :=
  ⟨rfl, c6_stat_fail_deletes (List String) sftpLog 3 envNoStat [] ["/", "r", "f1"] rfl⟩

/-- Claim C7: a Delete intent for a path that cannot be expressed relative to
the local root returns success, leaves the remote state untouched, and (the
state being universally quantified over every SFTP instrumentation) performs
no remote operation at all. -/
theorem c7_delete_out_of_root (σ : Type) (S : SftpM σ) (fuel : Nat) (env : SyncEnv)
    (s : σ) (p : FsPath) (h : rel env p = Option.none) :
    deleteElement S fuel env s p = (s, Except.ok ()) := by
  unfold deleteElement
  by_cases hbl : isBlacklisted env.blacklist env.localRoot p = true
  · simp [hbl]
  · simp only [Bool.not_eq_true] at hbl
    simp [hbl, h]

/-- Witness for claim C7 at a path outside the local root. -/
theorem c7_witness :
    rel envA ["/", "z"] = Option.none
    ∧ deleteElement sftpLog 3 envA [] ["/", "z"] = ([], Except.ok ()) :=
  ⟨by decide, c7_delete_out_of_root (List String) sftpLog 3 envA [] ["/", "z"] (by decide)⟩

/-- Claim C8: deleting an absent remote target succeeds and leaves the state
unchanged — so applying Delete twice in a row succeeds both times — and when
`readdir` fails inside the recursive remove (target already gone), the
recursive remove is a successful no-op (the trailing best-effort `rmdir`
failing without effect) rather than an error. -/
theorem c8_delete_absent (σ : Type) (S : SftpM σ) (fuel : Nat) (env : SyncEnv)
    (s : σ) (p r : FsPath)
    (hbl : isBlacklisted env.blacklist env.localRoot p = false)
    (hrel : rel env p = some r)
    (hunlink : S.unlink s (env.remoteRoot ++ r) = (s, false))
    (hstat : S.stat s (env.remoteRoot ++ r) = Option.none) :
    (deleteElement S fuel env s p = (s, Except.ok ())
      ∧ deleteElement S fuel env (deleteElement S fuel env s p).1 p = (s, Except.ok ()))
    ∧ ∀ (q : FsPath) (s2 : σ), S.readdir s2 q = Option.none →
        S.rmdir s2 q = (s2, false) → removeDirRec S (fuel + 1) s2 q = s2 := by
  have hone : deleteElement S fuel env s p = (s, Except.ok ()) := by
    unfold deleteElement
    simp [hbl, hrel, hunlink, remoteIsDir, hstat]
  refine ⟨⟨hone, by rw [hone]; exact hone⟩, ?_⟩
  intro q s2 hrd hrm
  unfold removeDirRec
  simp [hrd, hrm]

/-- Witness for claim C8: the store holds only the base directory `rem`;
deleting the absent `/r/f1` twice succeeds with the store unchanged, and the
recursive remove of the absent remote path is a no-op. -/
theorem c8_witness :
    (deleteElement sftpOfFS 3 envA fs0 ["/", "r", "f1"] = (fs0, Except.ok ())
      ∧ deleteElement sftpOfFS 3 envA
          (deleteElement sftpOfFS 3 envA fs0 ["/", "r", "f1"]).1 ["/", "r", "f1"]
          = (fs0, Except.ok ()))
    ∧ removeDirRec sftpOfFS 4 fs0 ["rem", "f1"] = fs0 := by
  have h := c8_delete_absent RemoteFS sftpOfFS 3 envA fs0 ["/", "r", "f1"] ["f1"]
    (by decide) (by decide) (by decide) (by decide)
  exact ⟨h.1, h.2 ["rem", "f1"] fs0 (by decide) (by decide)⟩

theorem processEvents_drop {σ : Type} (S : SftpM σ) (fuel : Nat) (env : SyncEnv)
    (p : FsPath) (ks : List EventKind)
    (hbl : isBlacklisted env.blacklist env.localRoot p = true) :
    ∀ (l1 l2 : List (FsPath × List EventKind)) (s : σ),
      processEvents S fuel env s (l1 ++ (p, ks) :: l2)
        = processEvents S fuel env s (l1 ++ l2) := by
  intro l1
  induction l1 with
  | nil =>
    intro l2 s
    simp [processEvents, hbl]
  | cons hd l1 ih =>
    intro l2 s
    rcases hd with ⟨q, qs⟩
    simp only [List.cons_append, processEvents]
    by_cases hq : isBlacklisted env.blacklist env.localRoot q = true
    · rw [if_pos hq, if_pos hq]
      exact ih l2 s
    · rw [if_neg hq, if_neg hq]
      cases finalAction qs with
      | none => exact ih l2 s
      | some a =>
        cases a with
        | none => exact ih l2 s
        | transfer =>
          rcases htr : transferElement S fuel env s q with ⟨s1, r⟩
          cases r with
          | ok _ => simp only [htr]; exact ih l2 s1
          | error e => simp only [htr]
        | delete =>
          rcases hdel : deleteElement S fuel env s q with ⟨s1, r⟩
          cases r with
          | ok _ => simp only [hdel]; exact ih l2 s1
          | error e => simp only [hdel]

theorem syncChildren_safe (env : SyncEnv) (ok : SyncOp → Bool) (dirPath : FsPath)
    (hd : SafeFromExcluded env dirPath) :
    ∀ cs : List (String × FsTree),
      (∀ op ∈ (syncChildren env ok dirPath cs).1, SafeFromExcluded env op.lpath)
      ∧ ∀ item ∈ (syncChildren env ok dirPath cs).2.1, SafeFromExcluded env item.1 := by
  intro cs
  induction cs with
  | nil =>
    constructor
    · intro op hop
      simp [syncChildren] at hop
    · intro item hitem
      simp [syncChildren] at hitem
  | cons hd2 rest ih =>
    rcases hd2 with ⟨name, t⟩
    cases hb : isBlacklisted env.blacklist env.localRoot (dirPath ++ [name]) with
    | true =>
      have heq : syncChildren env ok dirPath ((name, t) :: rest)
          = syncChildren env ok dirPath rest := by
        simp [syncChildren, hb]
      rw [heq]
      exact ih
    | false =>
      have hsafe : SafeFromExcluded env (dirPath ++ [name]) := by
        intro e he1 he2
        cases hsw : startsWith (dirPath ++ [name]) e with
        | false => rfl
        | true =>
          rcases startsWith_snoc dirPath name e hsw with h2 | h2
          · exact absurd (hd e he1 he2) (by simp [h2])
          · rw [h2] at he2
            rw [he2] at hb
            exact absurd hb (by simp)
      cases hrel : rel env (dirPath ++ [name]) with
      | none =>
        have heq : syncChildren env ok dirPath ((name, t) :: rest)
            = ([], [], false) := by
          simp [syncChildren, hb, hrel]
        rw [heq]
        constructor
        · intro op hop
          simp at hop
        · intro item hitem
          simp at hitem
      | some r =>
        cases t with
        | dir m cs2 =>
          cases hok : ok (SyncOp.ensureDirEntry (dirPath ++ [name])
              (env.remoteRoot ++ r) (m &&& 511)) with
          | true =>
            have heq : syncChildren env ok dirPath ((name, FsTree.dir m cs2) :: rest)
                = (SyncOp.ensureDirEntry (dirPath ++ [name]) (env.remoteRoot ++ r)
                      (m &&& 511) :: (syncChildren env ok dirPath rest).1,
                   (dirPath ++ [name], cs2) :: (syncChildren env ok dirPath rest).2.1,
                   (syncChildren env ok dirPath rest).2.2) := by
              simp [syncChildren, hb, hrel, hok]
            rw [heq]
            constructor
            · intro op hop
              rcases List.mem_cons.1 hop with h2 | h2
              · rw [h2]
                exact hsafe
              · exact ih.1 op h2
            · intro item hitem
              rcases List.mem_cons.1 hitem with h2 | h2
              · rw [h2]
                exact hsafe
              · exact ih.2 item h2
          | false =>
            have heq : syncChildren env ok dirPath ((name, FsTree.dir m cs2) :: rest)
                = ([SyncOp.ensureDirEntry (dirPath ++ [name]) (env.remoteRoot ++ r)
                      (m &&& 511)], [], false) := by
              simp [syncChildren, hb, hrel, hok]
            rw [heq]
            constructor
            · intro op hop
              rcases List.mem_singleton.1 hop with h2
              rw [h2]
              exact hsafe
            · intro item hitem
              simp at hitem
        | file m =>
          cases hok : ok (SyncOp.ensureParentDir (dirPath ++ [name])
              (env.remoteRoot ++ r).dropLast 493) with
          | true =>
            cases hok2 : ok (SyncOp.upload (dirPath ++ [name])
                (env.remoteRoot ++ r) (m &&& 511)) with
            | true =>
              have heq : syncChildren env ok dirPath ((name, FsTree.file m) :: rest)
                  = (SyncOp.ensureParentDir (dirPath ++ [name])
                        (env.remoteRoot ++ r).dropLast 493
                      :: SyncOp.upload (dirPath ++ [name]) (env.remoteRoot ++ r)
                          (m &&& 511)
                      :: (syncChildren env ok dirPath rest).1,
                     (syncChildren env ok dirPath rest).2.1,
                     (syncChildren env ok dirPath rest).2.2) := by
                simp [syncChildren, hb, hrel, hok, hok2]
              rw [heq]
              constructor
              · intro op hop
                rcases List.mem_cons.1 hop with h2 | h2
                · rw [h2]
                  exact hsafe
                · rcases List.mem_cons.1 h2 with h3 | h3
                  · rw [h3]
                    exact hsafe
                  · exact ih.1 op h3
              · exact ih.2
            | false =>
              have heq : syncChildren env ok dirPath ((name, FsTree.file m) :: rest)
                  = ([SyncOp.ensureParentDir (dirPath ++ [name])
                        (env.remoteRoot ++ r).dropLast 493,
                      SyncOp.upload (dirPath ++ [name]) (env.remoteRoot ++ r)
                        (m &&& 511)], [], false) := by
                simp [syncChildren, hb, hrel, hok, hok2]
              rw [heq]
              constructor
              · intro op hop
                rcases List.mem_cons.1 hop with h2 | h2
                · rw [h2]
                  exact hsafe
                · rcases List.mem_singleton.1 h2 with h3
                  rw [h3]
                  exact hsafe
              · intro item hitem
                simp at hitem
          | false =>
            have heq : syncChildren env ok dirPath ((name, FsTree.file m) :: rest)
                = ([SyncOp.ensureParentDir (dirPath ++ [name])
                      (env.remoteRoot ++ r).dropLast 493], [], false) := by
              simp [syncChildren, hb, hrel, hok]
            rw [heq]
            constructor
            · intro op hop
              rcases List.mem_singleton.1 hop with h2
              rw [h2]
              exact hsafe
            · intro item hitem
              simp at hitem
        | special =>
          have heq : syncChildren env ok dirPath ((name, FsTree.special) :: rest)
              = syncChildren env ok dirPath rest := by
            simp [syncChildren, hb, hrel]
          rw [heq]
          exact ih

theorem transferAllGo_safe (env : SyncEnv) (ok : SyncOp → Bool) :
    ∀ (fuel : Nat) (q : List (FsPath × List (String × FsTree))),
      (∀ item ∈ q, SafeFromExcluded env item.1) →
      ∀ op ∈ (transferAllGo env ok fuel q).1, SafeFromExcluded env op.lpath := by
  intro fuel
  induction fuel with
  | zero =>
    intro q hq op hop
    cases q with
    | nil => simp [transferAllGo] at hop
    | cons a rest => simp [transferAllGo] at hop
  | succ fuel ih =>
    intro q hq op hop
    cases q with
    | nil => simp [transferAllGo] at hop
    | cons a rest =>
      rcases a with ⟨dirPath, children⟩
      have hd : SafeFromExcluded env dirPath := hq _ (List.mem_cons_self _ _)
      have hsc := syncChildren_safe env ok dirPath hd children
      simp only [transferAllGo] at hop
      by_cases hflag : (syncChildren env ok dirPath children).2.2 = true
      · rw [if_pos hflag] at hop
        simp only [List.mem_append] at hop
        rcases hop with hop | hop
        · exact hsc.1 op hop
        · refine ih (rest ++ (syncChildren env ok dirPath children).2.1) ?_ op hop
          intro item hitem
          rcases List.mem_append.1 hitem with hi | hi
          · exact hq item (List.mem_cons_of_mem _ hi)
          · exact hsc.2 item hi
      · rw [if_neg hflag] at hop
        exact hsc.1 op hop

/-- Claim C9, amended: provided the local root itself is not excluded by the
filter, the full sync issues no remote call for an excluded path nor for
anything at or below an excluded path within the local root (it skips
excluded entries and never descends into an excluded directory), and the
coalescer drops excluded paths from a tick before folding their events. -/
theorem c9_no_ops_for_excluded (env : SyncEnv) (ok : SyncOp → Bool)
    (children : List (String × FsTree))
    (hroot : isBlacklisted env.blacklist env.localRoot env.localRoot = false) :
    (∀ e : FsPath, startsWith e env.localRoot = true →
        isBlacklisted env.blacklist env.localRoot e = true →
        ∀ op ∈ (transferAll env ok children).1, startsWith op.lpath e = false)
    ∧ ∀ (σ : Type) (S : SftpM σ) (fuel : Nat) (s : σ)
        (l1 l2 : List (FsPath × List EventKind)) (p : FsPath) (ks : List EventKind),
        isBlacklisted env.blacklist env.localRoot p = true →
        processEvents S fuel env s (l1 ++ (p, ks) :: l2)
          = processEvents S fuel env s (l1 ++ l2) := by
  constructor
  · intro e he1 he2 op hop
    have hsafe : SafeFromExcluded env env.localRoot := by
      intro e2 h1 h2
      cases hsw : startsWith env.localRoot e2 with
      | false => rfl
      | true =>
        have he : e2 = env.localRoot := startsWith_antisymm e2 env.localRoot h1 hsw
        rw [he] at h2
        exact absurd h2 (by simp [hroot])
    refine transferAllGo_safe env ok (1 + childrenSize children)
      [(env.localRoot, children)] ?_ op hop e he1 he2
    intro item hitem
    rcases List.mem_singleton.1 hitem with h2
    rw [h2]
    exact hsafe
  · intro σ S fuel s l1 l2 p ks hbl
    exact processEvents_drop S fuel env p ks hbl l1 l2 s

/-- Witness for the amended claim C9: with blacklist entry `build` the root
`/r` is not excluded, `/r/build` is, and a tick event for `/r/build` is
dropped without any application. -/
theorem c9_witness :
    isBlacklisted ["build"] ["/", "r"] ["/", "r"] = false
    ∧ isBlacklisted ["build"] ["/", "r"] ["/", "r", "build"] = true
    ∧ processEvents sftpLog 3 envB [] [(["/", "r", "build"], [EventKind.created])]
        = processEvents sftpLog 3 envB [] [] :=
  ⟨by decide, by decide,
   (c9_no_ops_for_excluded envB okAll [] (by decide)).2 (List String) sftpLog 3 [] [] []
     ["/", "r", "build"] [EventKind.created] (by decide)⟩
